import Mathlib

/-!
A shallow embedding of `process_media.py` (batch video transcoding driver).

Modelling conventions:
* A Python dict loaded from `presets.json` is modelled as a record whose fields
  are `Option`-valued: `none` models an absent key.  JSON numeric fields are
  modelled as `Int` (the script immediately coerces them with `int(...)`).
* Raising an exception is modelled as `Except.error` with a label string;
  since `main` installs no handler, an `Except.error` propagating out of the
  batch loop models the process crashing with an uncaught traceback.
* The external encoder invocation `subprocess.call(cmd)` is modelled as an
  uninterpreted function `executor : List String → Int` giving the exit code.
* Python string slicing `vb[:-1]` is modelled at the code-point level
  (`List.dropLast` on the character list), matching Python string semantics.
-/

namespace ProcessMedia

/-- The `encode` sub-dict of a preset (`mode`, `video_bitrate`, `crf`,
`x264_preset`); every key may be absent. -/
structure Encode where
  mode : Option String
  video_bitrate : Option String
  crf : Option Int
  x264_preset : Option String
deriving DecidableEq

/-- The empty dict `{}` used as the default for a missing `encode` key. -/
def Encode.empty : Encode := ⟨none, none, none, none⟩

/-- A preset dict from `presets.json`; every key may be absent.  Fields are
exactly the keys `process_media.py` reads. -/
@[ext]
structure Preset where
  width : Option Int
  height : Option Int
  fps : Option Int
  strategy : Option String
  pad_color : Option String
  vcodec : Option String
  pix_fmt : Option String
  profile : Option String
  audio_bitrate : Option String
  container : Option String
  encode : Option Encode
deriving DecidableEq

/-- The `argparse.Namespace` of optional override flags.  `argparse` stores
`None` for an unsupplied flag, so every field is an `Option`. -/
structure Overrides where
  width : Option Int
  height : Option Int
  fps : Option Int
  strategy : Option String
  mode : Option String
  video_bitrate : Option String
  crf : Option Int
  x264_preset : Option String
  audio_bitrate : Option String
deriving DecidableEq

/-- An override set with no flag supplied. -/
def Overrides.noneSet : Overrides := ⟨none, none, none, none, none, none, none, none, none⟩

/-- Python truthiness of an optional int flag (`if args.width:`):
`None` and `0` are falsy. -/
def truthyOptInt : Option Int → Bool
  | none => false
  | some n => n != 0

/-- Python truthiness of an optional string flag (`if args.strategy:`):
`None` and `""` are falsy. -/
def truthyOptStr : Option String → Bool
  | none => false
  | some s => s != ""

/-- Value of a nonempty all-digit character run, `none` otherwise. -/
def digitsVal? (cs : List Char) : Option Nat :=
  if cs ≠ [] ∧ cs.all Char.isDigit then
    some (cs.foldl (fun a c => a * 10 + (c.toNat - 48)) 0)
  else none

/-- Python `str.strip()` of the surrounding whitespace, at the code-point
level. -/
def pyStrip (s : String) : List Char :=
  ((s.data.dropWhile Char.isWhitespace).reverse.dropWhile Char.isWhitespace).reverse

/-- Python `int(s)` on a string: surrounding whitespace stripped, one optional
sign, then a nonempty run of decimal digits; anything else raises `ValueError`
(modelled as `none`).  Digit-grouping underscores are not modelled. -/
def pyInt? (s : String) : Option Int :=
  match pyStrip s with
  | '-' :: rest => (digitsVal? rest).map (fun n => -(n : Int))
  | '+' :: rest => (digitsVal? rest).map (fun n => (n : Int))
  | cs => (digitsVal? cs).map (fun n => (n : Int))

/-- Python `str.lower()`, at the code-point level (the mode strings the script
compares are ASCII). -/
def pyLower (s : String) : String := String.mk (s.data.map Char.toLower)

/-- Python slice `s[:-1]`: the string without its last code point. -/
def pySliceDropLast (s : String) : String := String.mk s.data.dropLast

/-- `VIDEO_EXTS` from the script (a Python `set`; modelled as a list, with a
permutation-invariance theorem discharging the arbitrary iteration order). -/
def VIDEO_EXTS : List String := [".mp4", ".mov", ".m4v", ".mkv", ".avi", ".webm"]

/-- `build_filter(width, height, strategy, pad_color)`: the scale/crop/pad
filter-graph expression, or `ValueError` for an unknown strategy. -/
def build_filter (width height : Int) (strategy : String) (pad_color : String) :
    Except String String :=
  if strategy = "cover" then
    Except.ok ("scale=" ++ toString width ++ ":" ++ toString height ++
      ":force_original_aspect_ratio=increase,crop=" ++ toString width ++ ":" ++
      toString height ++ ",setsar=1")
  else if strategy = "contain" then
    Except.ok ("scale=" ++ toString width ++ ":" ++ toString height ++
      ":force_original_aspect_ratio=decrease,pad=" ++ toString width ++ ":" ++
      toString height ++ ":(ow-iw)/2:(oh-ih)/2:" ++ pad_color ++ ",setsar=1")
  else
    Except.error "ValueError: strategy must be cover or contain"

/-- `build_video_args(enc)`: the rate-control argument list.
`enc.get("mode", "bitrate").lower()` selects the mode; bitrate mode computes
`-bufsize` as `str(int(int(vb[:-1]) * 2)) + "k"`. -/
def build_video_args (enc : Encode) : Except String (List String) :=
  let x264_preset := enc.x264_preset.getD "medium"
  let args := ["-preset", x264_preset]
  let mode := pyLower (enc.mode.getD "bitrate")
  if mode = "bitrate" then
    let vb := enc.video_bitrate.getD "5000k"
    match pyInt? (pySliceDropLast vb) with
    | none => Except.error "ValueError: invalid literal for int"
    | some n =>
      Except.ok (args ++ ["-b:v", vb, "-maxrate", vb, "-bufsize", toString (n * 2) ++ "k"])
  else if mode = "crf" then
    Except.ok (args ++ ["-crf", toString (enc.crf.getD 20), "-b:v", "0"])
  else
    Except.error "ValueError: encode.mode must be bitrate or crf"

/-- `apply_overrides(p, args)`: shallow-copies the preset, applies each truthy
scalar override, merges the `encode` block (with `crf` applied after `mode`,
so `crf` forces `mode = "crf"`), and stores the merged block back. -/
def apply_overrides (p : Preset) (args : Overrides) : Preset :=
  let out := p
  let out := if truthyOptInt args.width then { out with width := args.width } else out
  let out := if truthyOptInt args.height then { out with height := args.height } else out
  let out := if truthyOptInt args.fps then { out with fps := args.fps } else out
  let out := if truthyOptStr args.strategy then { out with strategy := args.strategy } else out
  let enc := out.encode.getD Encode.empty
  let enc := if truthyOptStr args.mode then { enc with mode := args.mode } else enc
  let enc := if truthyOptStr args.video_bitrate then
      { enc with video_bitrate := args.video_bitrate } else enc
  let enc := match args.crf with
    | some c => { enc with mode := some "crf", crf := some c }
    | none => enc
  let enc := if truthyOptStr args.x264_preset then
      { enc with x264_preset := args.x264_preset } else enc
  let out := { out with encode := some enc }
  let out := if truthyOptStr args.audio_bitrate then
      { out with audio_bitrate := args.audio_bitrate } else out
  out

/-- `load_presets(preset_path)`: `sys.exit` when the file is missing, else
`json.load` of the file contents.  The filesystem read-and-parse is modelled
by the `parsed` argument (`none` = file absent).  No per-preset validation is
performed. -/
def load_presets (preset_path : String) (parsed : Option (List (String × Preset))) :
    Except String (List (String × Preset)) :=
  match parsed with
  | none => Except.error ("Error: presets file not found at " ++ preset_path)
  | some m => Except.ok m

/-- `pathlib` name of a POSIX path string: the part after the last `/`. -/
def pathName (p : String) : String :=
  String.mk ((p.data.reverse.takeWhile (fun c => c != '/')).reverse)

/-- Index of the last `.` in a character list, if any. -/
def rfindDot (cs : List Char) : Option Nat :=
  (List.range cs.length).foldl (fun acc i => if cs.getD i ' ' = '.' then some i else acc) none

/-- `pathlib` `Path.stem`: the final component without its suffix; a leading or
trailing dot is not a suffix separator. -/
def pathStem (p : String) : String :=
  let nm := pathName p
  let cs := nm.data
  match rfindDot cs with
  | some i => if 0 < i ∧ i < cs.length - 1 then String.mk (cs.take i) else nm
  | none => nm

/-- `normalize_outname(stem, preset_name, container)`. -/
def normalize_outname (stem preset_name container : String) : String :=
  stem ++ "_" ++ preset_name ++ "." ++ container

/-- `build_cmd(infile, outfile, p)`: the full ffmpeg invocation.
`p["width"]` / `p["height"]` raise `KeyError` when absent; every other field
is read with `.get` and a default. -/
def build_cmd (infile outfile : String) (p : Preset) : Except String (List String) :=
  match p.width, p.height with
  | some width, some height =>
    let fps := p.fps.getD 30
    let strategy := p.strategy.getD "cover"
    let pad_color := p.pad_color.getD "black"
    let vcodec := p.vcodec.getD "libx264"
    let pix_fmt := p.pix_fmt.getD "yuv420p"
    let profile := p.profile.getD "high"
    let audio_bitrate := p.audio_bitrate.getD "128k"
    match build_filter width height strategy pad_color with
    | Except.error e => Except.error e
    | Except.ok vf =>
      let enc := p.encode.getD ⟨some "bitrate", some "5000k", none, some "medium"⟩
      match build_video_args enc with
      | Except.error e => Except.error e
      | Except.ok v_args =>
        Except.ok (["ffmpeg", "-y", "-i", infile, "-vf", vf, "-r", toString fps,
          "-c:v", vcodec, "-profile:v", profile, "-pix_fmt", pix_fmt] ++ v_args ++
          ["-movflags", "+faststart", "-c:a", "aac", "-b:a", audio_bitrate, outfile])
  | _, _ => Except.error "KeyError: width or height"

/-- `" ".join(cmd)` as printed by `process_one`. -/
def joinSpace (cmd : List String) : String := String.intercalate " " cmd

/-- `process_one(infile, outdir, preset_name, p, dry_run)`: derives the output
path, builds the command, prints it, and returns the encoder exit status
(`0` without invoking the encoder in dry-run mode).  Returns the printed lines
together with the exit code; exceptions from `build_cmd` propagate. -/
def process_one (executor : List String → Int) (infile outdir preset_name : String)
    (p : Preset) (dry_run : Bool) : Except String (List String × Int) :=
  let container := p.container.getD "mp4"
  let outfile := outdir ++ "/" ++ normalize_outname (pathStem infile) preset_name container
  match build_cmd infile outfile p with
  | Except.error e => Except.error e
  | Except.ok cmd =>
    if dry_run then Except.ok (["DRY RUN: " ++ joinSpace cmd], 0)
    else Except.ok (["Running: " ++ joinSpace cmd], executor cmd)

/-- Whether `rglob("*" ++ ext)` matches the path `p`: the path ends with the
extension (no allow-listed extension contains a path separator). -/
def matchesExt (ext p : String) : Bool := ext.data.isSuffixOf p.data

/-- Lexicographic order on code-point lists: the comparison Python performs
between two POSIX paths when sorting them. -/
def lexLe : List Char → List Char → Bool
  | [], _ => true
  | _ :: _, [] => false
  | a :: as, b :: bs => if a < b then true else if b < a then false else lexLe as bs

/-- The path order used by `sorted()` on `pathlib` paths. -/
def pathLe (a b : String) : Bool := lexLe a.data b.data

/-- The input path argument: an existing file, an existing directory (with the
recursive list of file paths below it), or a nonexistent path. -/
inductive InputPath where
  | file (p : String)
  | dir (contents : List String)
  | missing (p : String)

/-- `collect_inputs(input_path)`: the path itself for a file; for a directory,
the concatenation of the `rglob` matches of each allow-listed extension,
sorted; `sys.exit` for a nonexistent path.  `sorted()` is modelled by
`List.insertionSort (· ≤ ·)`: for the linear path order the sorted
permutation of a list is unique, so this is the list `sorted()` returns. -/
def collect_inputs : InputPath → Except String (List String)
  | InputPath.file p => Except.ok [p]
  | InputPath.dir contents =>
    let files := VIDEO_EXTS.foldl
      (fun acc ext => acc ++ contents.filter (fun p => matchesExt ext p)) []
    Except.ok (files.insertionSort (fun a b => pathLe a b = true))
  | InputPath.missing p => Except.error ("Error: input path does not exist: " ++ p)

/-- The print line emitted by `main` when a job exits nonzero. -/
def errLine (infile preset_name : String) (code : Int) : String :=
  "Error processing " ++ infile ++ " with preset " ++ preset_name ++
    " (exit " ++ toString code ++ ")"

/-- The job loop of `main` (lines 203–213), over the flattened cross product
`(infile, preset_name)` in source order.  The accumulator `ec` is the mutable
`exit_code`; the result carries the printed lines, the per-job exit codes in
order, and the final `exit_code` handed to `sys.exit`.  An exception from
command building (or a `KeyError` on an unknown preset name, which `main`
rules out beforehand) propagates as `Except.error`, aborting the loop. -/
def run_jobs (executor : List String → Int) (outdir : String) (dry_run : Bool)
    (ov : Overrides) (presets : List (String × Preset)) :
    List (String × String) → Int → Except String (List String × List Int × Int)
  | [], ec => Except.ok ([], [], ec)
  | (infile, n) :: rest, ec =>
    match presets.lookup n with
    | none => Except.error ("KeyError: " ++ n)
    | some base_p =>
      let p := apply_overrides base_p ov
      match process_one executor infile outdir n p dry_run with
      | Except.error e => Except.error e
      | Except.ok (plog, code) =>
        let elog := if code ≠ 0 then [errLine infile n code] else []
        let ec2 := if code ≠ 0 then code else ec
        match run_jobs executor outdir dry_run ov presets rest ec2 with
        | Except.error e => Except.error e
        | Except.ok (log, codes, fin) => Except.ok (plog ++ elog ++ log, code :: codes, fin)

/-- The cross product `for infile in inputs: for n in names:` in source order. -/
def jobs_of (inputs names : List String) : List (String × String) :=
  inputs.flatMap (fun i => names.map (fun n => (i, n)))

/-- Structured view of a single filter-graph operation, for stating which
operations a built expression consists of. -/
inductive FilterOp where
  | scale (w h : Int) (aspect : String)
  | crop (w h : Int)
  | pad (w h : Int) (x y : String) (color : String)
  | setsar (v : Int)
deriving DecidableEq

/-- Rendering of one filter operation in ffmpeg syntax. -/
def renderOp : FilterOp → String
  | FilterOp.scale w h a =>
    "scale=" ++ toString w ++ ":" ++ toString h ++ ":force_original_aspect_ratio=" ++ a
  | FilterOp.crop w h => "crop=" ++ toString w ++ ":" ++ toString h
  | FilterOp.pad w h x y color =>
    "pad=" ++ toString w ++ ":" ++ toString h ++ ":" ++ x ++ ":" ++ y ++ ":" ++ color
  | FilterOp.setsar v => "setsar=" ++ toString v

/-- Comma-joined rendering of a filter chain. -/
def renderFilter : List FilterOp → String
  | [] => ""
  | [op] => renderOp op
  | op :: rest => renderOp op ++ "," ++ renderFilter rest

/-- The operation chain of the cover strategy. -/
def coverOps (w h : Int) : List FilterOp :=
  [FilterOp.scale w h "increase", FilterOp.crop w h, FilterOp.setsar 1]

/-- The operation chain of the contain strategy. -/
def containOps (w h : Int) (color : String) : List FilterOp :=
  [FilterOp.scale w h "decrease", FilterOp.pad w h "(ow-iw)/2" "(oh-ih)/2" color,
   FilterOp.setsar 1]

/-- Whether an operation is a pad. -/
def FilterOp.isPadOp : FilterOp → Bool
  | FilterOp.pad _ _ _ _ _ => true
  | _ => false

/-- Whether an operation is a crop. -/
def FilterOp.isCropOp : FilterOp → Bool
  | FilterOp.crop _ _ => true
  | _ => false

/-! ### Heap model for the mutation claim

`apply_overrides` manipulates two Python dict objects: the preset dict and its
nested `encode` dict.  To settle the no-mutation claim we make the nested
object reference explicit: a heap maps addresses to `encode` dicts, and a
preset object holds an optional address instead of an inline sub-record. -/

/-- Heap of `encode` dict objects. -/
abbrev EncHeap := List (Nat × Encode)

/-- An address not used by any entry of the heap. -/
def freshAddr (h : EncHeap) : Nat := h.foldr (fun p m => max (p.1 + 1) m) 0

/-- A preset dict object whose `encode` entry is a reference into the heap. -/
structure PresetObj where
  width : Option Int
  height : Option Int
  fps : Option Int
  strategy : Option String
  pad_color : Option String
  vcodec : Option String
  pix_fmt : Option String
  profile : Option String
  audio_bitrate : Option String
  container : Option String
  encodeRef : Option Nat
deriving DecidableEq

/-- The preset value denoted by a preset object under a heap. -/
def derefPreset (h : EncHeap) (p : PresetObj) : Preset :=
  { width := p.width, height := p.height, fps := p.fps, strategy := p.strategy,
    pad_color := p.pad_color, vcodec := p.vcodec, pix_fmt := p.pix_fmt,
    profile := p.profile, audio_bitrate := p.audio_bitrate, container := p.container,
    encode := match p.encodeRef with
      | some a => some ((h.lookup a).getD Encode.empty)
      | none => none }

/-- `apply_overrides` at the object level: `out = dict(p)` creates a fresh
top-level dict sharing the `encode` reference, `enc = dict(out.get("encode", {}))`
allocates a fresh `encode` dict initialised from the referenced one, the
overrides are written into the fresh objects, and `out["encode"] = enc` points
the copy at the fresh address.  Returns the extended heap and the new object. -/
def apply_overridesH (h : EncHeap) (p : PresetObj) (args : Overrides) :
    EncHeap × PresetObj :=
  let out := p
  let out := if truthyOptInt args.width then { out with width := args.width } else out
  let out := if truthyOptInt args.height then { out with height := args.height } else out
  let out := if truthyOptInt args.fps then { out with fps := args.fps } else out
  let out := if truthyOptStr args.strategy then { out with strategy := args.strategy } else out
  let enc := match out.encodeRef with
    | some a => (h.lookup a).getD Encode.empty
    | none => Encode.empty
  let enc := if truthyOptStr args.mode then { enc with mode := args.mode } else enc
  let enc := if truthyOptStr args.video_bitrate then
      { enc with video_bitrate := args.video_bitrate } else enc
  let enc := match args.crf with
    | some c => { enc with mode := some "crf", crf := some c }
    | none => enc
  let enc := if truthyOptStr args.x264_preset then
      { enc with x264_preset := args.x264_preset } else enc
  let addr := freshAddr h
  let h2 := (addr, enc) :: h
  let out := { out with encodeRef := some addr }
  let out := if truthyOptStr args.audio_bitrate then
      { out with audio_bitrate := args.audio_bitrate } else out
  (h2, out)

/-! ## Helper lemmas -/

/-- The `encode`-block merge performed inside `apply_overrides`, factored out
so that properties of the merged block can be stated on their own. -/
def encMerge (enc0 : Encode) (args : Overrides) : Encode :=
  let enc := enc0
  let enc := if truthyOptStr args.mode then { enc with mode := args.mode } else enc
  let enc := if truthyOptStr args.video_bitrate then
      { enc with video_bitrate := args.video_bitrate } else enc
  let enc := match args.crf with
    | some c => { enc with mode := some "crf", crf := some c }
    | none => enc
  let enc := if truthyOptStr args.x264_preset then
      { enc with x264_preset := args.x264_preset } else enc
  enc

theorem apply_overrides_encode (p : Preset) (args : Overrides) :
    (apply_overrides p args).encode = some (encMerge (p.encode.getD Encode.empty) args) := by
  unfold apply_overrides encMerge
  by_cases h1 : truthyOptInt args.width = true <;>
    by_cases h2 : truthyOptInt args.height = true <;>
    by_cases h3 : truthyOptInt args.fps = true <;>
    by_cases h4 : truthyOptStr args.strategy = true <;>
    by_cases h5 : truthyOptStr args.audio_bitrate = true <;>
    simp [h1, h2, h3, h4, h5]

theorem pySliceDropLast_concat (s : String) : pySliceDropLast (s ++ "k") = s := by
  apply String.ext
  show ((s ++ "k").data.dropLast) = s.data
  rw [String.data_append, show ("k" : String).data = ['k'] from rfl]
  exact List.dropLast_concat

theorem renderFilter_cover (w h : Int) :
    renderFilter (coverOps w h) =
      "scale=" ++ toString w ++ ":" ++ toString h ++
      ":force_original_aspect_ratio=increase,crop=" ++ toString w ++ ":" ++
      toString h ++ ",setsar=1" := by
  apply String.ext
  simp [renderFilter, coverOps, renderOp]
  rfl

theorem renderFilter_contain (w h : Int) (c : String) :
    renderFilter (containOps w h c) =
      "scale=" ++ toString w ++ ":" ++ toString h ++
      ":force_original_aspect_ratio=decrease,pad=" ++ toString w ++ ":" ++
      toString h ++ ":(ow-iw)/2:(oh-ih)/2:" ++ c ++ ",setsar=1" := by
  apply String.ext
  simp [renderFilter, containOps, renderOp]
  rfl

/-! ## Claim C3 -/

/-- C3: for every base preset and every override set, if a `crf` override is
present, the resolved preset's encode mode equals `"crf"` (and the `crf` value
is stored), regardless of any separate `mode` override in the same
invocation. -/
theorem claim3_crf_wins (p : Preset) (args : Overrides) (c : Int)
    (h : args.crf = some c) :
    ∃ e, (apply_overrides p args).encode = some e ∧
      e.mode = some "crf" ∧ e.crf = some c := by
  refine ⟨encMerge (p.encode.getD Encode.empty) args, apply_overrides_encode p args, ?_, ?_⟩ <;>
  · unfold encMerge
    rw [h]
    by_cases hm : truthyOptStr args.mode = true <;>
      by_cases hv : truthyOptStr args.video_bitrate = true <;>
      by_cases hx : truthyOptStr args.x264_preset = true <;>
      simp [hm, hv, hx]

/-- Witness for C3: a base preset in bitrate mode, with `--mode bitrate`
explicitly overridden and `--crf 20` supplied: the resolved mode is `crf`. -/
theorem claim3_crf_wins_witness :
    ∃ e, (apply_overrides
      ⟨some 1080, some 1920, some 30, some "cover", none, none, none, none, none, none,
        some ⟨some "bitrate", some "6000k", none, none⟩⟩
      ⟨none, none, none, none, some "bitrate", none, some 20, none, none⟩).encode = some e ∧
      e.mode = some "crf" ∧ e.crf = some 20 :=
  claim3_crf_wins _ _ 20 rfl

/-! ## Claim C9 -/

/-- C9: an override whose value is falsy (`0` for the integer flags, `""` for
the string flags) is treated as absent for width, height, fps, strategy, mode,
video_bitrate, x264_preset and audio_bitrate — the merged preset keeps every
base field — whereas a `crf` override of `0` is applied and still forces
`mode = "crf"`. -/
theorem claim9_falsy_ignored_crf_zero_applied (p : Preset) :
    apply_overrides p ⟨some 0, some 0, some 0, some "", some "", some "", some 0, some "", some ""⟩ =
      { p with encode := some { p.encode.getD Encode.empty with
          mode := some "crf", crf := some 0 } } := by
  unfold apply_overrides
  simp [truthyOptInt, truthyOptStr]

/-! ## Claim C4 -/

/-- Counterexample to C4 as stated: for `video_bitrate = "6M"` (unit suffix
`M`), the emitted `-bufsize` is `"12k"`, not two times the target in the same
unit suffix (`"12M"`): the builder strips the final character whatever it is
and always appends `"k"`. -/
theorem claim4_counterexample :
    build_video_args ⟨some "bitrate", some "6M", none, none⟩ =
      Except.ok ["-preset", "medium", "-b:v", "6M", "-maxrate", "6M", "-bufsize", "12k"] ∧
    ("12k" : String) ≠ "12M" := by
  constructor
  · rfl
  · decide

/-- C4 as amended: restrict the unit suffix to `"k"`.  For every bitrate-mode
encode block whose `video_bitrate` ends in `"k"` with a parseable numeric
part, `-b:v` and `-maxrate` carry the target verbatim and `-bufsize` is
exactly twice the numeric value with the same `"k"` suffix. -/
theorem claim4_bufsize_double_k (enc : Encode) (s : String) (n : Int)
    (hm : enc.mode = some "bitrate") (hv : enc.video_bitrate = some (s ++ "k"))
    (hp : pyInt? s = some n) :
    build_video_args enc =
      Except.ok ["-preset", enc.x264_preset.getD "medium", "-b:v", s ++ "k",
        "-maxrate", s ++ "k", "-bufsize", toString (n * 2) ++ "k"] := by
  unfold build_video_args
  rw [hm, hv]
  rw [show pyLower ((some "bitrate").getD "bitrate") = "bitrate" from rfl]
  rw [if_pos rfl]
  simp only [Option.getD_some, pySliceDropLast_concat, hp]
  rfl

/-- Witness for C4 (the spec §8 example): `video_bitrate = "6000k"` yields
`-bufsize 12000k`. -/
theorem claim4_bufsize_double_k_witness :
    build_video_args ⟨some "bitrate", some "6000k", none, none⟩ =
      Except.ok ["-preset", "medium", "-b:v", "6000k",
        "-maxrate", "6000k", "-bufsize", "12000k"] :=
  claim4_bufsize_double_k ⟨some "bitrate", some "6000k", none, none⟩ "6000" 6000 rfl rfl rfl

/-! ## Claim C5 -/

/-- C5 concerns the unit-suffix handling the spec prescribes; the code instead
silently truncates.  Evaluation at the failing input `video_bitrate = "6000"`
(no unit suffix — the final `"0"` plays the role of one): no error is raised;
the final digit is dropped and the buffer size is emitted as `"1200k"`, while
`-b:v` still carries `"6000"`. -/
theorem claim5_silent_truncation_eval :
    build_video_args ⟨some "bitrate", some "6000", none, none⟩ =
      Except.ok ["-preset", "medium", "-b:v", "6000",
        "-maxrate", "6000", "-bufsize", "1200k"] := rfl

/-! ## Claim C7 -/

/-- Counterexample to C7 as stated: a presets file whose single preset lacks
the required `width` field loads successfully — `load_presets` performs no
structural validation at load time. -/
theorem claim7_counterexample :
    load_presets "presets.json"
      (some [("p1", ⟨none, some 1080, none, none, none, none, none, none, none, none, none⟩)]) =
    Except.ok [("p1", ⟨none, some 1080, none, none, none, none, none, none, none, none, none⟩)] :=
  rfl

/-- C7 as amended: loading performs no structural validation — any parsed
preset map is returned unchanged, and the only load-time failure is a missing
file.  A missing `width` surfaces only when the job's command is built
(`KeyError`), and a structurally invalid (non-positive) dimension together
with unknown codec/profile strings is accepted and deferred to the external
encoder. -/
theorem claim7_no_load_validation :
    (∀ path m, load_presets path (some m) = Except.ok m) ∧
    (∀ path, load_presets path none =
      Except.error ("Error: presets file not found at " ++ path)) ∧
    (∀ i o p, p.width = none → build_cmd i o p = Except.error "KeyError: width or height") ∧
    (∃ cmd, build_cmd "clip.mp4" "outputs/clip_p1.mp4"
      ⟨some 0, some (-1), none, none, none, some "no_such_codec", none, some "bogus_profile",
        none, none, none⟩ = Except.ok cmd) := by
  refine ⟨fun _ _ => rfl, fun _ => rfl, ?_, ⟨_, rfl⟩⟩
  intro i o p hw
  unfold build_cmd
  rw [hw]

/-- Witness for C7: the missing-`width` conjunct applied to a concrete
preset. -/
theorem claim7_no_load_validation_witness :
    build_cmd "clip.mp4" "outputs/clip_p1.mp4"
      ⟨none, some 1080, none, none, none, none, none, none, none, none, none⟩ =
      Except.error "KeyError: width or height" :=
  claim7_no_load_validation.2.2.1 "clip.mp4" "outputs/clip_p1.mp4"
    ⟨none, some 1080, none, none, none, none, none, none, none, none, none⟩ rfl

/-! ## Claim C6 -/

/-- C6: for every positive width and height, the cover-strategy filter
expression is the rendering of an operation chain containing a crop of exactly
`(width, height)` and no pad operation; the contain-strategy expression is the
rendering of a chain that pads to exactly `(width, height)` with the pad color
and contains no crop operation; and any other strategy value is a
`ValueError`. -/
theorem claim6_filter_shapes (w h : Int) (c : String) (hw : 0 < w) (hh : 0 < h) :
    (build_filter w h "cover" c = Except.ok (renderFilter (coverOps w h)) ∧
      FilterOp.crop w h ∈ coverOps w h ∧
      ∀ op ∈ coverOps w h, op.isPadOp = false) ∧
    (build_filter w h "contain" c = Except.ok (renderFilter (containOps w h c)) ∧
      FilterOp.pad w h "(ow-iw)/2" "(oh-ih)/2" c ∈ containOps w h c ∧
      ∀ op ∈ containOps w h c, op.isCropOp = false) ∧
    (∀ s, s ≠ "cover" → s ≠ "contain" →
      build_filter w h s c = Except.error "ValueError: strategy must be cover or contain") := by
  refine ⟨⟨?_, ?_, ?_⟩, ⟨?_, ?_, ?_⟩, ?_⟩
  · rw [renderFilter_cover]
    rfl
  · simp [coverOps]
  · intro op hop
    simp only [coverOps, List.mem_cons, List.not_mem_nil, or_false] at hop
    rcases hop with rfl | rfl | rfl <;> rfl
  · rw [renderFilter_contain]
    rfl
  · simp [containOps]
  · intro op hop
    simp only [containOps, List.mem_cons, List.not_mem_nil, or_false] at hop
    rcases hop with rfl | rfl | rfl <;> rfl
  · intro s hs1 hs2
    unfold build_filter
    rw [if_neg hs1, if_neg hs2]

/-- Witness for C6 at the spec §8 example dimensions `1080×1920` (with the
invalid-strategy conjunct applied at `"stretch"`). -/
theorem claim6_filter_shapes_witness :
    build_filter 1080 1920 "cover" "black" = Except.ok (renderFilter (coverOps 1080 1920)) ∧
    build_filter 1080 1920 "stretch" "black" =
      Except.error "ValueError: strategy must be cover or contain" :=
  ⟨(claim6_filter_shapes 1080 1920 "black" (by decide) (by decide)).1.1,
   (claim6_filter_shapes 1080 1920 "black" (by decide) (by decide)).2.2 "stretch"
     (by decide) (by decide)⟩

/-! ## Claims C2 and C1: the batch loop -/

/-- Whether a `process_one` result is a normal return (no exception). -/
def exOk : Except String (List String × Int) → Bool
  | Except.ok _ => true
  | Except.error _ => false

/-- The exit code of the chronologically last failing job, if any: the value
the mutable `exit_code` accumulator tracks. -/
def lastNonzero (codes : List Int) : Option Int :=
  codes.foldl (fun a c => if c ≠ 0 then some c else a) none

theorem foldl_lastNonzero_getD (cs : List Int) :
    ∀ (a : Option Int) (e : Int),
    (cs.foldl (fun x c => if c ≠ 0 then some c else x) a).getD e =
      cs.foldl (fun x c => if c ≠ 0 then c else x) (a.getD e) := by
  induction cs with
  | nil => intro a e; rfl
  | cons c cs ih =>
    intro a e
    simp only [List.foldl_cons]
    rw [ih]
    congr 1
    by_cases hc : c = 0 <;> simp [hc]

theorem lastNonzero_getD (cs : List Int) (e : Int) :
    (lastNonzero cs).getD e = cs.foldl (fun x c => if c ≠ 0 then c else x) e := by
  simpa [lastNonzero] using foldl_lastNonzero_getD cs none e

theorem foldl_lastNonzero_all_zero (cs : List Int) :
    ∀ (a : Option Int), (∀ c ∈ cs, c = 0) →
    cs.foldl (fun x c => if c ≠ 0 then some c else x) a = a := by
  induction cs with
  | nil => intro a _; rfl
  | cons c cs ih =>
    intro a h
    have hc : c = 0 := h c (List.mem_cons_self c cs)
    simp only [List.foldl_cons, hc]
    simpa using ih a (fun x hx => h x (List.mem_cons_of_mem c hx))

theorem lastNonzero_of_last_failure (z : Int) (l2 : List Int) :
    ∀ (l1 : List Int) (a : Option Int), z ≠ 0 → (∀ c ∈ l2, c = 0) →
    (l1 ++ z :: l2).foldl (fun x c => if c ≠ 0 then some c else x) a = some z := by
  intro l1
  induction l1 with
  | nil =>
    intro a hz h2
    simp only [List.nil_append, List.foldl_cons, if_pos hz]
    exact foldl_lastNonzero_all_zero l2 (some z) h2
  | cons x l1 ih =>
    intro a hz h2
    simp only [List.cons_append, List.foldl_cons]
    exact ih _ hz h2

theorem run_jobs_all_ok (executor : List String → Int) (outdir : String) (dry : Bool)
    (ov : Overrides) (presets : List (String × Preset)) :
    ∀ (jobs : List (String × String)) (ec : Int),
    (∀ j ∈ jobs, ∃ base, presets.lookup j.2 = some base ∧
      exOk (process_one executor j.1 outdir j.2 (apply_overrides base ov) dry) = true) →
    ∃ log codes,
      run_jobs executor outdir dry ov presets jobs ec =
        Except.ok (log, codes, codes.foldl (fun x c => if c ≠ 0 then c else x) ec) ∧
      codes.length = jobs.length := by
  intro jobs
  induction jobs with
  | nil => intro ec _; exact ⟨[], [], rfl, rfl⟩
  | cons j rest ih =>
    intro ec H
    obtain ⟨base, hb, hok⟩ := H j (List.mem_cons_self j rest)
    obtain ⟨i, n⟩ := j
    cases hpo : process_one executor i outdir n (apply_overrides base ov) dry with
    | error e => rw [hpo] at hok; exact absurd hok (by simp [exOk])
    | ok r =>
      obtain ⟨pl, c⟩ := r
      obtain ⟨log, codes, heq, hlen⟩ :=
        ih (if c ≠ 0 then c else ec) (fun x hx => H x (List.mem_cons_of_mem _ hx))
      refine ⟨pl ++ (if c ≠ 0 then [errLine i n c] else []) ++ log, c :: codes, ?_, by simp [hlen]⟩
      simp only [run_jobs, hb, hpo, heq, List.foldl_cons]

/-- C2: for every batch whose jobs all run to an outcome (their commands
build), every job executes (one exit code per job, in order), the final exit
code is `0` when every job succeeds, and otherwise it equals the exit code of
the chronologically last failing job. -/
theorem claim2_exit_code_last_failure (executor : List String → Int) (outdir : String)
    (dry : Bool) (ov : Overrides) (presets : List (String × Preset))
    (jobs : List (String × String))
    (H : ∀ j ∈ jobs, ∃ base, presets.lookup j.2 = some base ∧
      exOk (process_one executor j.1 outdir j.2 (apply_overrides base ov) dry) = true) :
    ∃ log codes,
      run_jobs executor outdir dry ov presets jobs 0 =
        Except.ok (log, codes, (lastNonzero codes).getD 0) ∧
      codes.length = jobs.length ∧
      ((∀ c ∈ codes, c = 0) → (lastNonzero codes).getD 0 = 0) ∧
      (∀ l1 z l2, codes = l1 ++ z :: l2 → z ≠ 0 → (∀ c ∈ l2, c = 0) →
        (lastNonzero codes).getD 0 = z) := by
  obtain ⟨log, codes, heq, hlen⟩ := run_jobs_all_ok executor outdir dry ov presets jobs 0 H
  refine ⟨log, codes, ?_, hlen, ?_, ?_⟩
  · rw [lastNonzero_getD]
    exact heq
  · intro hall
    have hn : lastNonzero codes = none := by
      unfold lastNonzero
      exact foldl_lastNonzero_all_zero codes none hall
    rw [hn]
    rfl
  · intro l1 z l2 hsplit hz h2
    subst hsplit
    have hs : lastNonzero (l1 ++ z :: l2) = some z := by
      unfold lastNonzero
      exact lastNonzero_of_last_failure z l2 l1 none hz h2
    rw [hs]
    rfl

/-- Witness for C2: a two-job batch over one preset with an encoder that
always exits `3`: both jobs run, and the final exit code is `3`. -/
theorem claim2_exit_code_last_failure_witness :
    ∃ log codes,
      run_jobs (fun _ => 3) "outputs" false Overrides.noneSet
        [("p", ⟨some 100, some 100, none, none, none, none, none, none, none, none, none⟩)]
        [("a.mp4", "p"), ("b.mp4", "p")] 0 =
        Except.ok (log, codes, (lastNonzero codes).getD 0) ∧
      codes.length = 2 ∧
      ((∀ c ∈ codes, c = 0) → (lastNonzero codes).getD 0 = 0) ∧
      (∀ l1 z l2, codes = l1 ++ z :: l2 → z ≠ 0 → (∀ c ∈ l2, c = 0) →
        (lastNonzero codes).getD 0 = z) :=
  claim2_exit_code_last_failure (fun _ => 3) "outputs" false Overrides.noneSet
    [("p", ⟨some 100, some 100, none, none, none, none, none, none, none, none, none⟩)]
    [("a.mp4", "p"), ("b.mp4", "p")]
    (by
      intro j hj
      simp only [List.mem_cons, List.not_mem_nil, or_false] at hj
      rcases hj with rfl | rfl <;> exact ⟨_, rfl, by decide⟩)

/-- Counterexample to C1 as stated: a batch of two jobs where the first job's
preset has the invalid strategy `"stretch"`.  The `ValueError` raised inside
the Filter Graph Builder is not caught anywhere in `main`: the loop result is
the uncaught exception, the second job never runs, and no error line naming
the (input, preset) pair is printed. -/
theorem claim1_counterexample :
    run_jobs (fun _ => 0) "outputs" false Overrides.noneSet
      [("bad", ⟨some 100, some 100, none, some "stretch", none, none, none, none, none, none, none⟩),
       ("good", ⟨some 100, some 100, none, none, none, none, none, none, none, none, none⟩)]
      [("a.mp4", "bad"), ("a.mp4", "good")] 0 =
      Except.error "ValueError: strategy must be cover or contain" := rfl

/-- C1 as amended: an invalid-strategy or invalid-encode-mode error raised
while building a job's command is NOT caught at the orchestrator boundary —
it propagates out of the loop and aborts the batch, whatever jobs remain.
Only a nonzero exit code from the external encoder is handled there: it is
logged with the offending (input, preset) pair, does not abort the remaining
jobs, and influences the final exit code by replacing the accumulator. -/
theorem claim1_builder_errors_abort (executor : List String → Int) (outdir : String)
    (dry : Bool) (ov : Overrides) (presets : List (String × Preset))
    (i n : String) (rest : List (String × String)) (ec : Int) :
    (∀ base e, presets.lookup n = some base →
      process_one executor i outdir n (apply_overrides base ov) dry = Except.error e →
      run_jobs executor outdir dry ov presets ((i, n) :: rest) ec = Except.error e) ∧
    (∀ base pl c, presets.lookup n = some base →
      process_one executor i outdir n (apply_overrides base ov) dry = Except.ok (pl, c) →
      c ≠ 0 →
      run_jobs executor outdir dry ov presets ((i, n) :: rest) ec =
        (run_jobs executor outdir dry ov presets rest c).map
          (fun r => (pl ++ errLine i n c :: r.1, c :: r.2.1, r.2.2))) := by
  constructor
  · intro base e hb hp
    simp only [run_jobs, hb, hp]
  · intro base pl c hb hp hc
    simp only [run_jobs, hb, hp, if_pos hc]
    cases hr : run_jobs executor outdir dry ov presets rest c <;>
      simp [hr, Except.map]

/-- Witness for C1 (amended): the abort conjunct applied to a one-job batch
with the invalid strategy `"stretch"`, and the continue conjunct applied to a
job whose encoder exits `2` followed by an empty remainder. -/
theorem claim1_builder_errors_abort_witness :
    run_jobs (fun _ => 0) "outputs" false Overrides.noneSet
      [("bad", ⟨some 100, some 100, none, some "stretch", none, none, none, none, none, none, none⟩)]
      [("b.mp4", "bad")] 0 =
      Except.error "ValueError: strategy must be cover or contain" ∧
    run_jobs (fun _ => 2) "outputs" false Overrides.noneSet
      [("p", ⟨some 100, some 100, none, none, none, none, none, none, none, none, none⟩)]
      [("b.mp4", "p")] 0 =
      (run_jobs (fun _ => 2) "outputs" false Overrides.noneSet
        [("p", ⟨some 100, some 100, none, none, none, none, none, none, none, none, none⟩)]
        [] 2).map
        (fun r => (["Running: " ++ joinSpace ["ffmpeg", "-y", "-i", "b.mp4", "-vf",
          "scale=100:100:force_original_aspect_ratio=increase,crop=100:100,setsar=1",
          "-r", "30", "-c:v", "libx264", "-profile:v", "high", "-pix_fmt", "yuv420p",
          "-preset", "medium", "-b:v", "5000k", "-maxrate", "5000k", "-bufsize", "10000k",
          "-movflags", "+faststart", "-c:a", "aac", "-b:a", "128k",
          "outputs/b_p.mp4"]] ++ errLine "b.mp4" "p" 2 :: r.1, 2 :: r.2.1, r.2.2)) :=
  ⟨(claim1_builder_errors_abort (fun _ => 0) "outputs" false Overrides.noneSet
      [("bad", ⟨some 100, some 100, none, some "stretch", none, none, none, none, none, none, none⟩)]
      "b.mp4" "bad" [] 0).1 _ _ rfl rfl,
   (claim1_builder_errors_abort (fun _ => 2) "outputs" false Overrides.noneSet
      [("p", ⟨some 100, some 100, none, none, none, none, none, none, none, none, none⟩)]
      "b.mp4" "p" [] 0).2 _ _ 2 rfl rfl (by decide)⟩

/-! ## Claim C8: the override merge never mutates the base preset -/

theorem lookup_lt_freshAddr :
    ∀ (h : EncHeap) (a : Nat) (v : Encode), h.lookup a = some v → a < freshAddr h := by
  intro h
  induction h with
  | nil => intro a v hav; simp [List.lookup] at hav
  | cons kv t ih =>
    intro a v hav
    obtain ⟨k, x⟩ := kv
    by_cases hk : a = k
    · subst hk
      calc a < a + 1 := Nat.lt_succ_self a
        _ ≤ freshAddr ((a, x) :: t) := Nat.le_max_left _ _
    · have hb : (a == k) = false := by simpa using hk
      rw [List.lookup, hb] at hav
      calc a < freshAddr t := ih a v hav
        _ ≤ freshAddr ((k, x) :: t) := Nat.le_max_right _ _

theorem lookup_freshAddr_none (h : EncHeap) : h.lookup (freshAddr h) = none := by
  cases hl : h.lookup (freshAddr h) with
  | none => rfl
  | some v => exact absurd (lookup_lt_freshAddr h _ v hl) (lt_irrefl _)

/-- The scalar-override stage of `apply_overrides` (width, height, fps,
strategy), named so the merge can be reasoned about stage by stage. -/
def mergeScalars (args : Overrides) (p : Preset) : Preset :=
  let out := p
  let out := if truthyOptInt args.width then { out with width := args.width } else out
  let out := if truthyOptInt args.height then { out with height := args.height } else out
  let out := if truthyOptInt args.fps then { out with fps := args.fps } else out
  if truthyOptStr args.strategy then { out with strategy := args.strategy } else out

/-- The final stage of `apply_overrides`: store the merged encode block and
apply the audio-bitrate override. -/
def finishOut (args : Overrides) (enc : Encode) (out : Preset) : Preset :=
  let out2 := { out with encode := some enc }
  if truthyOptStr args.audio_bitrate then { out2 with audio_bitrate := args.audio_bitrate }
  else out2

/-- The scalar-override stage at the object level. -/
def mergeScalarsObj (args : Overrides) (p : PresetObj) : PresetObj :=
  let out := p
  let out := if truthyOptInt args.width then { out with width := args.width } else out
  let out := if truthyOptInt args.height then { out with height := args.height } else out
  let out := if truthyOptInt args.fps then { out with fps := args.fps } else out
  if truthyOptStr args.strategy then { out with strategy := args.strategy } else out

/-- `out.get("encode", {})` dereferenced at the object level. -/
def encBaseObj (h : EncHeap) (q : PresetObj) : Encode :=
  match q.encodeRef with
  | some a => (h.lookup a).getD Encode.empty
  | none => Encode.empty

/-- The final stage at the object level: point the copy at the fresh encode
dict and apply the audio-bitrate override. -/
def finishOutObj (args : Overrides) (addr : Nat) (out : PresetObj) : PresetObj :=
  let out2 := { out with encodeRef := some addr }
  if truthyOptStr args.audio_bitrate then { out2 with audio_bitrate := args.audio_bitrate }
  else out2

theorem apply_overrides_decomp (p : Preset) (args : Overrides) :
    apply_overrides p args =
      finishOut args (encMerge ((mergeScalars args p).encode.getD Encode.empty) args)
        (mergeScalars args p) := rfl

theorem apply_overridesH_decomp (h : EncHeap) (p : PresetObj) (args : Overrides) :
    apply_overridesH h p args =
      ((freshAddr h, encMerge (encBaseObj h (mergeScalarsObj args p)) args) :: h,
       finishOutObj args (freshAddr h) (mergeScalarsObj args p)) := rfl

theorem mergeScalars_deref (h : EncHeap) (p : PresetObj) (args : Overrides) :
    derefPreset h (mergeScalarsObj args p) = mergeScalars args (derefPreset h p) := by
  unfold mergeScalarsObj mergeScalars derefPreset
  by_cases h1 : truthyOptInt args.width = true <;>
    by_cases h2 : truthyOptInt args.height = true <;>
    by_cases h3 : truthyOptInt args.fps = true <;>
    by_cases h4 : truthyOptStr args.strategy = true <;>
    simp [h1, h2, h3, h4]

theorem mergeScalarsObj_encodeRef (p : PresetObj) (args : Overrides) :
    (mergeScalarsObj args p).encodeRef = p.encodeRef := by
  unfold mergeScalarsObj
  by_cases h1 : truthyOptInt args.width = true <;>
    by_cases h2 : truthyOptInt args.height = true <;>
    by_cases h3 : truthyOptInt args.fps = true <;>
    by_cases h4 : truthyOptStr args.strategy = true <;>
    simp [h1, h2, h3, h4]

theorem deref_encode_getD (h : EncHeap) (q : PresetObj) :
    (derefPreset h q).encode.getD Encode.empty = encBaseObj h q := by
  cases hq : q.encodeRef <;> simp [derefPreset, encBaseObj, hq]

theorem finishOut_deref (h : EncHeap) (q : PresetObj) (args : Overrides) (enc : Encode) :
    derefPreset ((freshAddr h, enc) :: h) (finishOutObj args (freshAddr h) q) =
      finishOut args enc (derefPreset h q) := by
  unfold finishOutObj finishOut derefPreset
  by_cases ha : truthyOptStr args.audio_bitrate = true <;>
    simp [ha, List.lookup]

/-- C8: the override merge is observationally a pure function that returns a
new preset value and never mutates the base preset.  In the heap model:
(1) every `encode` dict present before the merge — in particular the base
preset's — is unchanged afterwards; (2) the merged preset references a fresh
`encode` dict that did not exist before (no aliasing with the base); and
(3) the value denoted by the result is exactly `apply_overrides` of the value
denoted by the base — a function of (base, overrides) alone. -/
theorem claim8_merge_pure_no_mutation (h : EncHeap) (p : PresetObj) (args : Overrides) :
    (∀ a v, h.lookup a = some v → ((apply_overridesH h p args).1).lookup a = some v) ∧
    (h.lookup (freshAddr h) = none ∧
      ((apply_overridesH h p args).2).encodeRef = some (freshAddr h)) ∧
    derefPreset (apply_overridesH h p args).1 (apply_overridesH h p args).2 =
      apply_overrides (derefPreset h p) args := by
  refine ⟨?_, ⟨lookup_freshAddr_none h, ?_⟩, ?_⟩
  · intro a v hav
    have hne : a ≠ freshAddr h := Nat.ne_of_lt (lookup_lt_freshAddr h a v hav)
    have hb : (a == freshAddr h) = false := by simpa using hne
    rw [apply_overridesH_decomp]
    rw [List.lookup, hb]
    exact hav
  · rw [apply_overridesH_decomp]
    unfold finishOutObj
    by_cases ha : truthyOptStr args.audio_bitrate = true <;> simp [ha]
  · rw [apply_overridesH_decomp, apply_overrides_decomp]
    show derefPreset _ (finishOutObj args (freshAddr h) (mergeScalarsObj args p)) = _
    rw [finishOut_deref h (mergeScalarsObj args p) args]
    rw [mergeScalars_deref]
    rw [← deref_encode_getD h (mergeScalarsObj args p), mergeScalars_deref]

/-- Witness for C8: the no-mutation conjunct evaluated on a one-entry heap:
after merging with a width override, the original encode dict at address 0 is
untouched. -/
theorem claim8_merge_pure_no_mutation_witness :
    ((apply_overridesH [(0, ⟨some "bitrate", some "6000k", none, none⟩)]
      ⟨some 1080, some 1920, none, none, none, none, none, none, none, none, some 0⟩
      ⟨some 640, none, none, none, none, none, none, none, none⟩).1).lookup 0 =
      some ⟨some "bitrate", some "6000k", none, none⟩ :=
  (claim8_merge_pure_no_mutation [(0, ⟨some "bitrate", some "6000k", none, none⟩)]
    ⟨some 1080, some 1920, none, none, none, none, none, none, none, none, some 0⟩
    ⟨some 640, none, none, none, none, none, none, none, none⟩).1 0
    ⟨some "bitrate", some "6000k", none, none⟩ rfl

/-! ## Claim C10: directory traversal is sorted and deterministic -/

theorem lexLe_total : ∀ a b : List Char, lexLe a b = true ∨ lexLe b a = true := by
  intro a
  induction a with
  | nil => intro b; left; cases b <;> rfl
  | cons x xs ih =>
    intro b
    cases b with
    | nil => right; rfl
    | cons y ys =>
      rcases lt_trichotomy x y with hlt | heq | hgt
      · left; simp [lexLe, hlt]
      · subst heq
        rcases ih ys with h | h
        · left; simpa [lexLe, lt_irrefl] using h
        · right; simpa [lexLe, lt_irrefl] using h
      · right; simp [lexLe, hgt]

theorem lexLe_trans :
    ∀ a b c : List Char, lexLe a b = true → lexLe b c = true → lexLe a c = true := by
  intro a
  induction a with
  | nil => intro b c _ _; rfl
  | cons x xs ih =>
    intro b c hab hbc
    cases b with
    | nil => simp [lexLe] at hab
    | cons y ys =>
      cases c with
      | nil => simp [lexLe] at hbc
      | cons z zs =>
        by_cases hxy : x < y
        · by_cases hyz : y < z
          · simp [lexLe, lt_trans hxy hyz]
          · by_cases hzy : z < y
            · simp [lexLe, hyz, hzy] at hbc
            · have hyz' : y = z := le_antisymm (not_lt.mp hzy) (not_lt.mp hyz)
              subst hyz'
              simp [lexLe, hxy]
        · by_cases hyx : y < x
          · simp [lexLe, hxy, hyx] at hab
          · have hxy' : x = y := le_antisymm (not_lt.mp hyx) (not_lt.mp hxy)
            subst hxy'
            by_cases hxz : x < z
            · simp [lexLe, hxz]
            · by_cases hzx : z < x
              · simp [lexLe, hxz, hzx] at hbc
              · have hxz' : x = z := le_antisymm (not_lt.mp hzx) (not_lt.mp hxz)
                subst hxz'
                simp only [lexLe, lt_irrefl, if_false] at hab hbc ⊢
                exact ih ys zs hab hbc

theorem lexLe_antisymm :
    ∀ a b : List Char, lexLe a b = true → lexLe b a = true → a = b := by
  intro a
  induction a with
  | nil => intro b _ hba; cases b with
    | nil => rfl
    | cons y ys => simp [lexLe] at hba
  | cons x xs ih =>
    intro b hab hba
    cases b with
    | nil => simp [lexLe] at hab
    | cons y ys =>
      by_cases hxy : x < y
      · simp [lexLe, hxy, asymm hxy] at hba
      · by_cases hyx : y < x
        · simp [lexLe, hxy, hyx] at hab
        · have hxy' : x = y := le_antisymm (not_lt.mp hyx) (not_lt.mp hxy)
          subst hxy'
          simp only [lexLe, lt_irrefl, if_false] at hab hba
          rw [ih ys hab hba]

theorem pathLe_total (a b : String) : pathLe a b = true ∨ pathLe b a = true :=
  lexLe_total a.data b.data

theorem pathLe_trans (a b c : String) :
    pathLe a b = true → pathLe b c = true → pathLe a c = true :=
  lexLe_trans a.data b.data c.data

theorem pathLe_antisymm (a b : String) :
    pathLe a b = true → pathLe b a = true → a = b := fun h1 h2 =>
  String.ext (lexLe_antisymm a.data b.data h1 h2)

/-- No two distinct allow-listed extensions can both be a suffix of the same
path (none is a suffix of another). -/
theorem exts_disjoint :
    ∀ e1 ∈ VIDEO_EXTS, ∀ e2 ∈ VIDEO_EXTS, ∀ p : String,
      matchesExt e1 p = true → matchesExt e2 p = true → e1 = e2 := by
  intro e1 h1 e2 h2 p m1 m2
  have s1 : e1.data <:+ p.data := List.isSuffixOf_iff_suffix.mp m1
  have s2 : e2.data <:+ p.data := List.isSuffixOf_iff_suffix.mp m2
  have hss := List.suffix_or_suffix_of_suffix s1 s2
  fin_cases h1 <;> fin_cases h2 <;>
    first
      | rfl
      | (exfalso; rcases hss with hs | hs <;> revert hs <;> decide)

theorem filter_or_perm (p q : String → Bool) (l : List String)
    (hd : ∀ x, p x = true → q x = true → False) :
    List.Perm (l.filter (fun x => p x || q x)) (l.filter p ++ l.filter q) := by
  induction l with
  | nil => exact List.Perm.refl _
  | cons x xs ih =>
    cases hp : p x with
    | true =>
      have hq : q x = false := by
        cases hqx : q x with
        | true => exact absurd (hd x hp hqx) (fun h => h)
        | false => rfl
      simp only [List.filter_cons, hp, hq, Bool.true_or, if_true]
      exact ih.cons x
    | false =>
      cases hq : q x with
      | true =>
        simp only [List.filter_cons, hp, hq, Bool.false_or]
        exact (ih.cons x).trans List.perm_middle.symm
      | false =>
        simpa only [List.filter_cons, hp, hq, Bool.false_or] using ih

theorem foldl_filter_perm (l : List String) :
    ∀ (exts : List String), exts.Nodup →
    (∀ e1 ∈ exts, ∀ e2 ∈ exts, ∀ p : String,
      matchesExt e1 p = true → matchesExt e2 p = true → e1 = e2) →
    ∀ init : List String,
    List.Perm (exts.foldl (fun acc e => acc ++ l.filter (fun p => matchesExt e p)) init)
      (init ++ l.filter (fun p => exts.any (fun e => matchesExt e p))) := by
  intro exts
  induction exts with
  | nil => intro _ _ init; simp
  | cons e rest ih =>
    intro hnd hdisj init
    have hdrest : ∀ e1 ∈ rest, ∀ e2 ∈ rest, ∀ p : String,
        matchesExt e1 p = true → matchesExt e2 p = true → e1 = e2 :=
      fun e1 h1 e2 h2 => hdisj e1 (List.mem_cons_of_mem e h1) e2 (List.mem_cons_of_mem e h2)
    have step := ih (List.Nodup.of_cons hnd) hdrest (init ++ l.filter (fun p => matchesExt e p))
    refine (List.foldl_cons _ _ ▸ step).trans ?_
    rw [List.append_assoc]
    refine List.Perm.append_left init ?_
    have hde : ∀ x : String, matchesExt e x = true →
        (rest.any (fun e2 => matchesExt e2 x)) = true → False := by
      intro x hx hr
      obtain ⟨e2, he2, hm2⟩ := List.any_eq_true.mp hr
      have : e = e2 := hdisj e (List.mem_cons_self e rest) e2 (List.mem_cons_of_mem e he2) x hx hm2
      subst this
      exact (List.nodup_cons.mp hnd).1 he2
    have hor := (filter_or_perm (fun p => matchesExt e p)
      (fun p => rest.any (fun e2 => matchesExt e2 p)) l hde).symm
    refine hor.trans (List.Perm.of_eq ?_)
    simp only [List.any_cons]

theorem foldl_filter_perm_congr (l l2 : List String) (h : List.Perm l l2) :
    ∀ (exts : List String) (init1 init2 : List String), List.Perm init1 init2 →
    List.Perm (exts.foldl (fun acc e => acc ++ l.filter (fun p => matchesExt e p)) init1)
      (exts.foldl (fun acc e => acc ++ l2.filter (fun p => matchesExt e p)) init2) := by
  intro exts
  induction exts with
  | nil => intro i1 i2 hi; exact hi
  | cons e rest ih =>
    intro i1 i2 hi
    simp only [List.foldl_cons]
    exact ih _ _ (hi.append (h.filter _))

/-- C10: for a directory input, the candidate list returned by
`collect_inputs` is exactly the recursively matched files with allow-listed
video extensions, in sorted path order; and it is invariant under any
permutation of the underlying directory enumeration (and of the extension
set's iteration order, which the sort also absorbs), so the job order — and
hence which failing job is chronologically last — is deterministic for a
given file set. -/
theorem claim10_collect_inputs_sorted_deterministic (contents : List String) :
    ∃ r, collect_inputs (InputPath.dir contents) = Except.ok r ∧
      r.Sorted (fun a b => pathLe a b = true) ∧
      List.Perm r (contents.filter (fun p => VIDEO_EXTS.any (fun e => matchesExt e p))) ∧
      ∀ contents2, List.Perm contents contents2 →
        collect_inputs (InputPath.dir contents2) = Except.ok r := by
  haveI htot : IsTotal String (fun a b => pathLe a b = true) := ⟨pathLe_total⟩
  haveI htr : IsTrans String (fun a b => pathLe a b = true) := ⟨pathLe_trans⟩
  haveI has : IsAntisymm String (fun a b => pathLe a b = true) := ⟨pathLe_antisymm⟩
  refine ⟨_, rfl, List.sorted_insertionSort _ _, ?_, ?_⟩
  · exact (List.perm_insertionSort _ _).trans
      ((foldl_filter_perm contents VIDEO_EXTS (by decide) exts_disjoint []).trans
        (List.Perm.of_eq (List.nil_append _)))
  · intro contents2 hp
    have hperm : List.Perm
        ((VIDEO_EXTS.foldl
          (fun acc e => acc ++ contents2.filter (fun p => matchesExt e p)) []).insertionSort
          (fun a b => pathLe a b = true))
        ((VIDEO_EXTS.foldl
          (fun acc e => acc ++ contents.filter (fun p => matchesExt e p)) []).insertionSort
          (fun a b => pathLe a b = true)) :=
      (List.perm_insertionSort _ _).trans
        ((foldl_filter_perm_congr contents2 contents hp.symm VIDEO_EXTS [] []
          (List.Perm.refl _)).trans (List.perm_insertionSort _ _).symm)
    have heq := List.eq_of_perm_of_sorted hperm
      (List.sorted_insertionSort _ _) (List.sorted_insertionSort _ _)
    show Except.ok _ = Except.ok _
    rw [heq]

/-- Witness for C10: enumerating the same two files in either order yields the
same candidate list. -/
theorem claim10_collect_inputs_sorted_deterministic_witness :
    collect_inputs (InputPath.dir ["b.mp4", "a.webm", "x.txt"]) =
      collect_inputs (InputPath.dir ["a.webm", "x.txt", "b.mp4"]) := by
  obtain ⟨r, h1, _, _, h4⟩ :=
    claim10_collect_inputs_sorted_deterministic ["b.mp4", "a.webm", "x.txt"]
  rw [h1, h4 ["a.webm", "x.txt", "b.mp4"] (by decide)]

end ProcessMedia
